import Mathlib

/-!
Verification of the incremental replication engine of tap-zendesk
(src/tap_zendesk/streams.py) against its specification.

Modelling conventions, stated once here:

* Timestamps are modelled as whole seconds (`Int`).  Every timestamp the
  tap manipulates is serialised in the fixed-width UTC format
  `%Y-%m-%dT%H:%M:%SZ` (`DATETIME_FORMAT`, streams.py line 13), and for
  strings of this fixed format lexicographic comparison coincides with
  chronological comparison; `datetime` arithmetic with
  `timedelta(seconds=k)` is integer addition.  Hence both the string
  comparisons (`parsed_start <= user.updated_at`) and the `datetime`
  comparisons of the source are faithfully modelled by `Int` comparison.
* Python falsy values (`None`, empty string) that guard the source
  (`if value and ...`, `if membership.updated_at:`) are modelled by
  `Option` with `none` for the falsy case.
* Python `//` is floor division; all divisions performed by the source
  act on nonnegative window sizes, where Lean `Int` division agrees.
* Network fetches are modelled by oracle functions passed as arguments;
  a raised exception from a fetch is an `Except.error`.  Logging and
  `time.sleep` have no observable effect on the data model and are
  dropped.
-/

namespace TapZendesk

/-- `Stream.update_bookmark` (streams.py lines 72-77): the stored bookmark
for the stream, given a candidate `value`.  A falsy (`none`) candidate is
a no-op; a candidate strictly greater than the current bookmark is stored
with one extra second added; anything else is a no-op. -/
def update_bookmark (bookmark : Int) (value : Option Int) : Int :=
  match value with
  | none => bookmark
  | some v => if bookmark < v then v + 1 else bookmark

/-- A bounded-search response: the reported total `count` and the record
timestamps (`updated_at`, as seconds) actually returned. -/
structure SearchResult where
  count : Nat
  records : List Int
deriving DecidableEq

/-- The loop state of `Users.sync` (streams.py lines 170-225):
window `[start, wend]`, current and original `search_window_size`,
the consistency-guard retry counter, the stored bookmark and the
records emitted so far. -/
structure UsersState where
  start : Int
  wend : Int
  size : Int
  origSize : Int
  numRetries : Nat
  bookmark : Int
  emitted : List Int
deriving DecidableEq

inductive UsersOutcome where
  | next (s : UsersState)
  | fatalCap (s : UsersState)
  | fatalConsistency (s : UsersState)
deriving DecidableEq

def UsersOutcome.state : UsersOutcome → UsersState
  | .next s => s
  | .fatalCap s => s
  | .fatalConsistency s => s

/-- One iteration of the `while start < sync_end` loop of `Users.sync`
(streams.py lines 181-225), given the search response `q` for the window
`[start, min wend syncEnd]`.
Over-cap (`count > 1000`): halve the window if `size > 1`, else raise
(lines 190-197).  Consistency guard (lines 202-210): a record before the
window start triggers a bounded retry (at most 60) of the identical
window, then a fatal `AssertionError`.  Otherwise (lines 213-225): reset
the retry counter, emit records inside `[parsed_start, parsed_end]`,
advance the bookmark to `parsed_end`, possibly double the window, and
slide `start = wend - 1`. -/
def usersStep (syncEnd : Int) (s : UsersState) (q : SearchResult) : UsersOutcome :=
  let parsedEnd := min s.wend syncEnd
  if 1000 < q.count then
    if 1 < s.size then
      .next { s with size := s.size / 2, wend := s.start + s.size / 2 }
    else
      .fatalCap s
  else if ∀ r ∈ q.records, s.start ≤ r then
    let newSize := if s.size ≤ s.origSize / 2 then s.size * 2 else s.size
    .next { start := s.wend - 1
            wend := s.wend - 1 + newSize
            size := newSize
            origSize := s.origSize
            numRetries := 0
            bookmark := update_bookmark s.bookmark (some parsedEnd)
            emitted := s.emitted ++
              q.records.filter (fun r => decide (s.start ≤ r) && decide (r ≤ parsedEnd)) }
  else if s.numRetries < 60 then
    .next { s with numRetries := s.numRetries + 1 }
  else
    .fatalConsistency s

inductive RunResult where
  | done (s : UsersState)
  | fatalCap (s : UsersState)
  | fatalConsistency (s : UsersState)
  | outOfFuel (s : UsersState)
deriving DecidableEq

def RunResult.finished : RunResult → Bool
  | .outOfFuel _ => false
  | _ => true

/-- The `Users.sync` window loop, driven by an oracle giving the search
response for each queried window `(parsed_start, parsed_end)`, with
explicit fuel.  The loop exits when `start >= sync_end`. -/
def usersRun (syncEnd : Int) (oracle : Int → Int → SearchResult) :
    Nat → UsersState → RunResult
  | 0, s => .outOfFuel s
  | Nat.succ fuel, s =>
    if s.start < syncEnd then
      match usersStep syncEnd s (oracle s.start (min s.wend syncEnd)) with
      | .next s2 => usersRun syncEnd oracle fuel s2
      | .fatalCap s2 => .fatalCap s2
      | .fatalConsistency s2 => .fatalConsistency s2
    else
      .done s

/-- Initial state of `Users.sync` (streams.py lines 171-180):
`start = bookmark - 1s`, `end = start + size`, full window size, retry
counter zero. -/
def usersInit (bookmark size : Int) : UsersState :=
  { start := bookmark - 1
    wend := bookmark - 1 + size
    size := size
    origSize := size
    numRetries := 0
    bookmark := bookmark
    emitted := [] }

/-- The loop of `Users.sync` halts for a given oracle when some fuel
suffices to reach a non-`outOfFuel` result. -/
def usersRunHalts (syncEnd : Int) (oracle : Int → Int → SearchResult)
    (s : UsersState) : Prop :=
  ∃ fuel, (usersRun syncEnd oracle fuel s).finished = true

/-- The loop state of `SatisfactionRatings.sync` (streams.py lines
330-373).  `bookmark0` is the bookmark variable captured once before
the loop (line 331) and used in the mid-loop comparison (line 360);
`bookmark` is the live stored state the `update_bookmark` calls act on. -/
structure SatState where
  start : Int
  wend : Int
  size : Int
  origSize : Int
  bookmark0 : Int
  bookmark : Int
  emitted : List Int
deriving DecidableEq

inductive SatOutcome where
  | next (s : SatState)
  | fatalAssert (s : SatState)
deriving DecidableEq

def SatOutcome.state : SatOutcome → SatState
  | .next s => s
  | .fatalAssert s => s

/-- The record loop of `SatisfactionRatings.sync` (streams.py lines
358-366), processed left to right: the `assert parsed_start <= updated_at`
aborts on the first violating record (`Except.error`, carrying the
bookmark and emissions accumulated so far); otherwise the bookmark is
advanced when `bookmark0 < r <= wend` and the record is emitted when
`start <= r <= wend`. -/
def satEmit (bookmark0 start wend : Int) :
    List Int → Int → List Int → Except (Int × List Int) (Int × List Int)
  | [], bm, em => .ok (bm, em)
  | r :: rest, bm, em =>
    if start ≤ r then
      satEmit bookmark0 start wend rest
        (if bookmark0 < r ∧ r ≤ wend then update_bookmark bm (some r) else bm)
        (if start ≤ r ∧ r ≤ wend then em ++ [r] else em)
    else
      .error (bm, em)

/-- One iteration of the `while start < sync_end` loop of
`SatisfactionRatings.sync` (streams.py lines 340-373), given the
response `q` for the window queried at `(start, min wend syncEnd)`.
Over-cap (`count > 50000`, lines 353-357): halve the window
unconditionally — there is no floor check — and re-query the same start.
Otherwise process the records (lines 358-366), possibly double the
window (lines 367-369), and slide `start = wend - 1` (lines 372-373). -/
def satStep (s : SatState) (q : SearchResult) : SatOutcome :=
  if 50000 < q.count then
    .next { s with size := s.size / 2, wend := s.start + s.size / 2 }
  else
    match satEmit s.bookmark0 s.start s.wend q.records s.bookmark s.emitted with
    | .error (bm, em) => .fatalAssert { s with bookmark := bm, emitted := em }
    | .ok (bm, em) =>
      let newSize := if s.size ≤ s.origSize / 2 then s.size * 2 else s.size
      .next { s with bookmark := bm
                     emitted := em
                     size := newSize
                     start := s.wend - 1
                     wend := s.wend - 1 + newSize }

inductive SatRunResult where
  | done (s : SatState)
  | fatalAssert (s : SatState)
  | outOfFuel (s : SatState)
deriving DecidableEq

def SatRunResult.finished : SatRunResult → Bool
  | .outOfFuel _ => false
  | _ => true

/-- The `SatisfactionRatings.sync` window loop with explicit fuel; the
query end is clipped to `sync_end` (streams.py lines 347-348). -/
def satRun (syncEnd : Int) (oracle : Int → Int → SearchResult) :
    Nat → SatState → SatRunResult
  | 0, s => .outOfFuel s
  | Nat.succ fuel, s =>
    if s.start < syncEnd then
      match satStep s (oracle s.start (min s.wend syncEnd)) with
      | .next s2 => satRun syncEnd oracle fuel s2
      | .fatalAssert s2 => .fatalAssert s2
    else
      .done s

/-- Initial state of `SatisfactionRatings.sync` (streams.py lines
331-335): `start = bookmark` (no one-second rewind here), `end = start +
size`. -/
def satInit (bookmark size : Int) : SatState :=
  { start := bookmark
    wend := bookmark + size
    size := size
    origSize := size
    bookmark0 := bookmark
    bookmark := bookmark
    emitted := [] }

/-- A ticket as listed by the incremental endpoint: its id, status and
`generated_timestamp` (epoch seconds). -/
structure Ticket where
  id : Int
  status : String
  generated_timestamp : Int
deriving DecidableEq

/-- `Tickets.push_ticket_child` (streams.py lines 233-239), restricted to
its bookmark effect: the candidate handed to `update_bookmark` is the
parent `generated_timestamp` plus one second (line 237), and
`update_bookmark` itself adds a further second when it stores. -/
def push_ticket_child (bookmark : Int) (generated_timestamp : Int) : Int :=
  update_bookmark bookmark (some (generated_timestamp + 1))

/-- Run state shared by the three child-expansion syncs: the stored child
bookmark, the per-run `ids` dedup list, the parent ids for which a child
fetch was issued (in order), and the number of child records emitted. -/
structure ChildState where
  bookmark : Int
  ids : List Int
  fetched : List Int
  emitted : Nat
deriving DecidableEq

def childInit (bookmark : Int) : ChildState :=
  { bookmark := bookmark, ids := [], fetched := [], emitted := 0 }

/-- One parent of `TicketAudits.sync` (streams.py lines 268-277): fetch
children only for an undeleted, not-yet-seen ticket; the fetch is issued
before `ids.append`, and a fetch exception propagates (`Except.error`)
— there is no try/except here. -/
def ticketAuditsStep (childFetch : Int → Except Unit (List Unit))
    (s : ChildState) (t : Ticket) : Except ChildState ChildState :=
  if t.status ≠ "deleted" ∧ t.id ∉ s.ids then
    match childFetch t.id with
    | .error _ => .error { s with fetched := s.fetched ++ [t.id] }
    | .ok children =>
      .ok (children.foldl
        (fun s2 _ =>
          { s2 with bookmark := push_ticket_child s2.bookmark t.generated_timestamp
                    emitted := s2.emitted + 1 })
        { s with fetched := s.fetched ++ [t.id], ids := s.ids ++ [t.id] })
  else
    .ok s

/-- The parent loop of `TicketAudits.sync`; an uncaught fetch exception
aborts the remaining parents. -/
def ticketAuditsGo (childFetch : Int → Except Unit (List Unit)) :
    List Ticket → ChildState → Except ChildState ChildState
  | [], s => .ok s
  | t :: rest, s =>
    match ticketAuditsStep childFetch s t with
    | .error s2 => .error s2
    | .ok s2 => ticketAuditsGo childFetch rest s2

/-- One parent of `TicketComments.sync` (streams.py lines 314-323):
identical shape to `TicketAudits.sync` — status guard, dedup, no
try/except. -/
def ticketCommentsStep (childFetch : Int → Except Unit (List Unit))
    (s : ChildState) (t : Ticket) : Except ChildState ChildState :=
  if t.status ≠ "deleted" ∧ t.id ∉ s.ids then
    match childFetch t.id with
    | .error _ => .error { s with fetched := s.fetched ++ [t.id] }
    | .ok children =>
      .ok (children.foldl
        (fun s2 _ =>
          { s2 with bookmark := push_ticket_child s2.bookmark t.generated_timestamp
                    emitted := s2.emitted + 1 })
        { s with fetched := s.fetched ++ [t.id], ids := s.ids ++ [t.id] })
  else
    .ok s

def ticketCommentsGo (childFetch : Int → Except Unit (List Unit)) :
    List Ticket → ChildState → Except ChildState ChildState
  | [], s => .ok s
  | t :: rest, s =>
    match ticketCommentsStep childFetch s t with
    | .error s2 => .error s2
    | .ok s2 => ticketCommentsGo childFetch rest s2

/-- One parent of `TicketMetrics.sync` (streams.py lines 290-301): no
status guard — deleted tickets are fetched too; `ids.append` happens
before the try block; the single metrics fetch and the push are wrapped
in try/except, so a failure only skips this parent. -/
def ticketMetricsStep (childFetch : Int → Except Unit Unit)
    (s : ChildState) (t : Ticket) : ChildState :=
  if t.id ∉ s.ids then
    let s2 := { s with ids := s.ids ++ [t.id], fetched := s.fetched ++ [t.id] }
    match childFetch t.id with
    | .error _ => s2
    | .ok _ =>
      { s2 with bookmark := push_ticket_child s2.bookmark t.generated_timestamp
                emitted := s2.emitted + 1 }
  else
    s

/-- The parent loop of `TicketMetrics.sync`: total — no exception from a
child fetch escapes it. -/
def ticketMetricsGo (childFetch : Int → Except Unit Unit) :
    List Ticket → ChildState → ChildState
  | [], s => s
  | t :: rest, s => ticketMetricsGo childFetch rest (ticketMetricsStep childFetch s t)

/-- The final state of a child-expansion run, whether it completed or
aborted with a propagated exception. -/
def childResultState : Except ChildState ChildState → ChildState
  | .ok s => s
  | .error s => s

/-- A group membership record: `updated_at` and `id`, with `none` for a
Python-falsy value. -/
structure Membership where
  updated_at : Option Int
  id : Option Int
deriving DecidableEq

/-- One record of `GroupMemberships.sync` (streams.py lines 470-485),
acting on the live stored bookmark `st` and the emissions `em`.
`bookmark0` is the bookmark read once before the fetch (line 467): the
emission comparison uses it, while `update_bookmark` acts on the live
state. -/
def groupMembershipsStep (bookmark0 : Int) (st : Int) (em : List Membership)
    (m : Membership) : Int × List Membership :=
  match m.updated_at with
  | some u =>
    if bookmark0 ≤ u then
      (update_bookmark st (some u), em ++ [m])
    else
      (st, em)
  | none =>
    match m.id with
    | some _ => (st, em ++ [m])
    | none => (st, em)

def groupMembershipsGo (bookmark0 : Int) :
    List Membership → Int → List Membership → Int × List Membership
  | [], st, em => (st, em)
  | m :: rest, st, em =>
    let p := groupMembershipsStep bookmark0 st em m
    groupMembershipsGo bookmark0 rest p.1 p.2

/-- `GroupMemberships.sync` over a fetched listing, starting from the
bookmark `bookmark0` read at sync start. -/
def groupMembershipsSync (bookmark0 : Int) (ms : List Membership) :
    Int × List Membership :=
  groupMembershipsGo bookmark0 ms bookmark0 []

/-- The bookmark and emission list a `satEmit` record loop ends with,
whether it completed or tripped the assertion. -/
def satEmitOut : Except (Int × List Int) (Int × List Int) → Int × List Int
  | .ok p => p
  | .error p => p

/-- An oracle whose every window query returns an in-cap, consistent,
empty result. -/
def emptyOracle : Int → Int → SearchResult := fun _ _ => ⟨0, []⟩

/-- A child-fetch oracle returning exactly one child for parent 42 and
none for any other parent. -/
def c6Fetch : Int → Except Unit (List Unit) :=
  fun i => if i = 42 then .ok [()] else .ok []

/-- A single-child fetch oracle that fails for parent 1 and succeeds for
every other parent. -/
def failOn1 : Int → Except Unit Unit :=
  fun i => if i = 1 then .error () else .ok ()

/-!  Theorems.  -/

theorem update_bookmark_le (bookmark : Int) (value : Option Int) :
    bookmark ≤ update_bookmark bookmark value := by
  cases value with
  | none => exact le_refl _
  | some v =>
    simp only [update_bookmark]
    split
    · omega
    · exact le_refl _

theorem foldl_update_bookmark_le (vs : List (Option Int)) :
    ∀ bookmark : Int, bookmark ≤ vs.foldl update_bookmark bookmark := by
  induction vs with
  | nil => intro b; exact le_refl _
  | cons v rest ih =>
    intro b
    exact le_trans (update_bookmark_le b v) (ih (update_bookmark b v))

/-- C1: `update_bookmark` writes `candidate + 1` exactly when the
candidate is strictly greater than the current bookmark, and leaves the
state unchanged otherwise (including for a falsy candidate); consequently
over any sequence of advances the bookmark never regresses. -/
theorem C1_update_bookmark_advance_monotone (b v : Int) (vs : List (Option Int)) :
    (b < v → update_bookmark b (some v) = v + 1) ∧
    (¬ b < v → update_bookmark b (some v) = b) ∧
    update_bookmark b none = b ∧
    b ≤ vs.foldl update_bookmark b := by
  refine ⟨?_, ?_, rfl, foldl_update_bookmark_le vs b⟩
  · intro h; simp [update_bookmark, h]
  · intro h; simp [update_bookmark, h]

/-- Witness for C1 at concrete inputs. -/
theorem C1_witness :
    update_bookmark 10 (some 15) = 16 ∧
    update_bookmark 10 (some 5) = 10 ∧
    update_bookmark 10 none = 10 ∧
    (10 : Int) ≤ [some 15, none, some 3].foldl update_bookmark 10 := by
  refine ⟨(C1_update_bookmark_advance_monotone 10 15 []).1 (by decide),
          (C1_update_bookmark_advance_monotone 10 5 []).2.1 (by decide),
          (C1_update_bookmark_advance_monotone 10 0 []).2.2.1,
          (C1_update_bookmark_advance_monotone 10 0 [some 15, none, some 3]).2.2.2⟩

theorem usersStep_overcap_halve (syncEnd : Int) (s : UsersState) (q : SearchResult)
    (hq : 1000 < q.count) (hs : 1 < s.size) :
    usersStep syncEnd s q =
      .next { s with size := s.size / 2, wend := s.start + s.size / 2 } := by
  simp [usersStep, hq, hs]

theorem usersStep_overcap_fatal (syncEnd : Int) (s : UsersState) (q : SearchResult)
    (hq : 1000 < q.count) (hs : s.size ≤ 1) :
    usersStep syncEnd s q = .fatalCap s := by
  have h2 : ¬ 1 < s.size := by omega
  simp [usersStep, hq, h2]

theorem usersStep_retry (syncEnd : Int) (s : UsersState) (q : SearchResult)
    (hq : q.count ≤ 1000) (hc : ¬ ∀ r ∈ q.records, s.start ≤ r)
    (hr : s.numRetries < 60) :
    usersStep syncEnd s q = .next { s with numRetries := s.numRetries + 1 } := by
  have h1 : ¬ 1000 < q.count := by omega
  simp [usersStep, h1, hc, hr]

theorem usersStep_retry_fatal (syncEnd : Int) (s : UsersState) (q : SearchResult)
    (hq : q.count ≤ 1000) (hc : ¬ ∀ r ∈ q.records, s.start ≤ r)
    (hr : 60 ≤ s.numRetries) :
    usersStep syncEnd s q = .fatalConsistency s := by
  have h1 : ¬ 1000 < q.count := by omega
  have h2 : ¬ s.numRetries < 60 := by omega
  simp [usersStep, h1, hc, h2]

theorem usersStep_success (syncEnd : Int) (s : UsersState) (q : SearchResult)
    (hq : q.count ≤ 1000) (hc : ∀ r ∈ q.records, s.start ≤ r) :
    usersStep syncEnd s q = .next
      { start := s.wend - 1
        wend := s.wend - 1 + (if s.size ≤ s.origSize / 2 then s.size * 2 else s.size)
        size := (if s.size ≤ s.origSize / 2 then s.size * 2 else s.size)
        origSize := s.origSize
        numRetries := 0
        bookmark := update_bookmark s.bookmark (some (min s.wend syncEnd))
        emitted := s.emitted ++ q.records.filter
          (fun r => decide (s.start ≤ r) && decide (r ≤ min s.wend syncEnd)) } := by
  have h1 : ¬ 1000 < q.count := by omega
  simp only [usersStep]
  rw [if_neg h1, if_pos hc]

theorem satStep_overcap (s : SatState) (q : SearchResult) (hq : 50000 < q.count) :
    satStep s q = .next { s with size := s.size / 2, wend := s.start + s.size / 2 } := by
  simp [satStep, hq]

/-- C2 (amended): on an over-cap response both adaptive-window streams
halve the window, keep the same `start` (so the re-query covers the same
start with the smaller size) and advance no bookmark and emit nothing;
but the one-second floor and the fatal capacity error exist only in the
users stream (`count > 1000`): `satisfaction_ratings` (`count > 50000`)
halves unconditionally, without a floor and without ever raising on this
path. -/
theorem C2_overcap_halving (syncEnd : Int) (s : UsersState) (t : SatState)
    (q p : SearchResult) :
    (1000 < q.count → 1 < s.size →
      usersStep syncEnd s q =
        .next { s with size := s.size / 2, wend := s.start + s.size / 2 }) ∧
    (1 < s.size → 1 ≤ s.size / 2) ∧
    (1000 < q.count → s.size ≤ 1 → usersStep syncEnd s q = .fatalCap s) ∧
    (50000 < p.count →
      satStep t p = .next { t with size := t.size / 2, wend := t.start + t.size / 2 }) := by
  refine ⟨fun hq hs => usersStep_overcap_halve syncEnd s q hq hs,
          fun hs => by omega,
          fun hq hs => usersStep_overcap_fatal syncEnd s q hq hs,
          fun hp => satStep_overcap t p hp⟩

/-- Witness for C2 at concrete inputs: a users window of 10 seconds with
1001 results halves to 5 seconds with the same start and untouched
bookmark and emissions; a users window already at 1 second is fatal; a
satisfaction_ratings window over 50000 halves. -/
theorem C2_witness :
    usersStep 100 ⟨0, 10, 10, 10, 0, 5, []⟩ ⟨1001, []⟩ =
      .next ⟨0, 5, 5, 10, 0, 5, []⟩ ∧
    (1 : Int) ≤ 10 / 2 ∧
    usersStep 100 ⟨0, 1, 1, 10, 0, 5, []⟩ ⟨1001, []⟩ =
      .fatalCap ⟨0, 1, 1, 10, 0, 5, []⟩ ∧
    satStep ⟨0, 8, 8, 8, 0, 0, []⟩ ⟨50001, []⟩ =
      .next ⟨0, 4, 4, 8, 0, 0, []⟩ := by
  refine ⟨(C2_overcap_halving 100 ⟨0, 10, 10, 10, 0, 5, []⟩ ⟨0, 8, 8, 8, 0, 0, []⟩
            ⟨1001, []⟩ ⟨50001, []⟩).1 (by decide) (by decide),
          (C2_overcap_halving 100 ⟨0, 10, 10, 10, 0, 5, []⟩ ⟨0, 8, 8, 8, 0, 0, []⟩
            ⟨1001, []⟩ ⟨50001, []⟩).2.1 (by decide),
          (C2_overcap_halving 100 ⟨0, 1, 1, 10, 0, 5, []⟩ ⟨0, 8, 8, 8, 0, 0, []⟩
            ⟨1001, []⟩ ⟨50001, []⟩).2.2.1 (by decide) (by decide),
          (C2_overcap_halving 100 ⟨0, 10, 10, 10, 0, 5, []⟩ ⟨0, 8, 8, 8, 0, 0, []⟩
            ⟨1001, []⟩ ⟨50001, []⟩).2.2.2 (by decide)⟩

/-- C2 counterexample: a satisfaction_ratings window already at the
claimed 1-second floor that is still over the cap does not raise a fatal
error — the step continues with the window halved to 0 seconds. -/
theorem C2_counterexample :
    satStep ⟨0, 1, 1, 1, 0, 0, []⟩ ⟨50001, []⟩ = .next ⟨0, 0, 0, 1, 0, 0, []⟩ := by
  decide

theorem not_all_ge_of_exists_lt (l : List Int) (a : Int)
    (h : ∃ r ∈ l, r < a) : ¬ ∀ r ∈ l, a ≤ r := by
  obtain ⟨r, hr, hlt⟩ := h
  intro hall
  exact absurd (hall r hr) (by omega)

/-- If the oracle keeps answering the queried window with an in-cap
response containing a record before the window start, the users loop
retries that same window until the counter reaches 60 and then stops
with the consistency fatal, its emissions and bookmark untouched. -/
theorem usersRun_persistent_violation (syncEnd : Int)
    (oracle : Int → Int → SearchResult) :
    ∀ k : Nat, ∀ s : UsersState, s.start < syncEnd →
      (oracle s.start (min s.wend syncEnd)).count ≤ 1000 →
      (∃ r ∈ (oracle s.start (min s.wend syncEnd)).records, r < s.start) →
      s.numRetries + k = 60 →
      usersRun syncEnd oracle (k + 2) s =
        .fatalConsistency { s with numRetries := 60 } := by
  intro k
  induction k with
  | zero =>
    intro s hlt hcap hvio hk
    have hc := not_all_ge_of_exists_lt _ _ hvio
    have hstep := usersStep_retry_fatal syncEnd s _ hcap hc (by omega)
    have hs : ({ s with numRetries := 60 } : UsersState) = s := by
      have h60 : s.numRetries = 60 := by omega
      cases s
      simp_all
    rw [hs]
    show usersRun syncEnd oracle (Nat.succ 1) s = .fatalConsistency s
    rw [usersRun, if_pos hlt, hstep]
  | succ k ih =>
    intro s hlt hcap hvio hk
    have hc := not_all_ge_of_exists_lt _ _ hvio
    have hstep := usersStep_retry syncEnd s _ hcap hc (by omega)
    have h2 := ih { s with numRetries := s.numRetries + 1 } hlt hcap hvio
      (show s.numRetries + 1 + k = 60 by omega)
    show usersRun syncEnd oracle (Nat.succ (k + 2)) s =
      .fatalConsistency { s with numRetries := 60 }
    rw [usersRun, if_pos hlt, hstep]
    exact h2

/-- C3: for the users consistency guard, an in-cap response containing a
record before the window start produces (while fewer than 60 retries
have been used) a retry of the identical window — only the counter
changes, nothing is emitted, no bookmark moves; once 60 retries are
exhausted it is fatal with the state untouched; a window that passes the
check resets the counter to zero; and under a persistent violation the
whole loop ends in the single consistency fatal having emitted nothing
from that window. -/
theorem C3_consistency_guard_bounded_retry (syncEnd : Int) (s : UsersState)
    (q : SearchResult) (oracle : Int → Int → SearchResult) :
    (q.count ≤ 1000 → (∃ r ∈ q.records, r < s.start) → s.numRetries < 60 →
      usersStep syncEnd s q = .next { s with numRetries := s.numRetries + 1 }) ∧
    (q.count ≤ 1000 → (∃ r ∈ q.records, r < s.start) → 60 ≤ s.numRetries →
      usersStep syncEnd s q = .fatalConsistency s) ∧
    (q.count ≤ 1000 → (∀ r ∈ q.records, s.start ≤ r) →
      ((usersStep syncEnd s q).state).numRetries = 0) ∧
    (s.start < syncEnd → s.numRetries = 0 →
      (oracle s.start (min s.wend syncEnd)).count ≤ 1000 →
      (∃ r ∈ (oracle s.start (min s.wend syncEnd)).records, r < s.start) →
      usersRun syncEnd oracle 62 s =
        .fatalConsistency { s with numRetries := 60 }) := by
  refine ⟨?_, ?_, ?_, ?_⟩
  · intro hq hv hr
    exact usersStep_retry syncEnd s q hq (not_all_ge_of_exists_lt _ _ hv) hr
  · intro hq hv hr
    exact usersStep_retry_fatal syncEnd s q hq (not_all_ge_of_exists_lt _ _ hv) hr
  · intro hq hc
    rw [usersStep_success syncEnd s q hq hc]
    rfl
  · intro hlt hr hcap hvio
    exact usersRun_persistent_violation syncEnd oracle 60 s hlt hcap hvio (by omega)

/-- Witness for C3 at concrete inputs: a violating in-cap response at
retry counts 0 and 60, a passing response resetting the counter, and a
persistently violating oracle driving the loop to the fatal with nothing
emitted. -/
theorem C3_witness :
    usersStep 10 ⟨0, 5, 5, 5, 0, 0, []⟩ ⟨0, [-1]⟩ = .next ⟨0, 5, 5, 5, 1, 0, []⟩ ∧
    usersStep 10 ⟨0, 5, 5, 5, 60, 0, []⟩ ⟨0, [-1]⟩ =
      .fatalConsistency ⟨0, 5, 5, 5, 60, 0, []⟩ ∧
    ((usersStep 10 ⟨0, 5, 5, 5, 7, 0, []⟩ ⟨0, [2]⟩).state).numRetries = 0 ∧
    usersRun 10 (fun a _ => (⟨0, [a - 1]⟩ : SearchResult)) 62 ⟨0, 5, 5, 5, 0, 0, []⟩ =
      .fatalConsistency ⟨0, 5, 5, 5, 60, 0, []⟩ := by
  refine ⟨(C3_consistency_guard_bounded_retry 10 ⟨0, 5, 5, 5, 0, 0, []⟩ ⟨0, [-1]⟩
            (fun a _ => (⟨0, [a - 1]⟩ : SearchResult))).1
            (by decide) ⟨-1, by decide, by decide⟩ (by decide),
          (C3_consistency_guard_bounded_retry 10 ⟨0, 5, 5, 5, 60, 0, []⟩ ⟨0, [-1]⟩
            (fun a _ => (⟨0, [a - 1]⟩ : SearchResult))).2.1
            (by decide) ⟨-1, by decide, by decide⟩ (by decide),
          (C3_consistency_guard_bounded_retry 10 ⟨0, 5, 5, 5, 7, 0, []⟩ ⟨0, [2]⟩
            (fun a _ => (⟨0, [a - 1]⟩ : SearchResult))).2.2.1
            (by decide) (by decide),
          (C3_consistency_guard_bounded_retry 10 ⟨0, 5, 5, 5, 0, 0, []⟩ ⟨0, [-1]⟩
            (fun a _ => (⟨0, [a - 1]⟩ : SearchResult))).2.2.2
            (by decide) rfl (by decide) ⟨-1, by decide, by decide⟩⟩

theorem satEmit_mem (b0 start wend : Int) :
    ∀ (recs : List Int) (bm : Int) (em : List Int) (r : Int),
      r ∈ (satEmitOut (satEmit b0 start wend recs bm em)).2 →
      r ∈ em ∨ (start ≤ r ∧ r ≤ wend) := by
  intro recs
  induction recs with
  | nil =>
    intro bm em r h
    simp only [satEmit, satEmitOut] at h
    exact Or.inl h
  | cons x rest ih =>
    intro bm em r h
    by_cases hx : start ≤ x
    · rw [satEmit, if_pos hx] at h
      rcases ih _ _ r h with hmem | hwin
      · by_cases hc : start ≤ x ∧ x ≤ wend
        · rw [if_pos hc] at hmem
          rcases List.mem_append.mp hmem with h1 | h1
          · exact Or.inl h1
          · have : r = x := by simpa using h1
            subst this
            exact Or.inr hc
        · rw [if_neg hc] at hmem
          exact Or.inl hmem
      · exact Or.inr hwin
    · rw [satEmit, if_neg hx] at h
      exact Or.inl h

/-- C4: in both adaptive-window streams, a record emitted by a loop
iteration (beyond what was already emitted) has its timestamp inside
the inclusive window `[start, wend]` — inclusive at both ends. -/
theorem C4_emitted_within_window (syncEnd : Int) (s : UsersState) (t : SatState)
    (q p : SearchResult) (r : Int) :
    (r ∈ ((usersStep syncEnd s q).state).emitted →
      r ∈ s.emitted ∨ (s.start ≤ r ∧ r ≤ s.wend)) ∧
    (r ∈ ((satStep t p).state).emitted →
      r ∈ t.emitted ∨ (t.start ≤ r ∧ r ≤ t.wend)) := by
  constructor
  · intro h
    by_cases h1 : 1000 < q.count
    · by_cases h2 : 1 < s.size
      · rw [usersStep_overcap_halve syncEnd s q h1 h2] at h
        exact Or.inl h
      · rw [usersStep_overcap_fatal syncEnd s q h1 (by omega)] at h
        exact Or.inl h
    · by_cases hc : ∀ r2 ∈ q.records, s.start ≤ r2
      · rw [usersStep_success syncEnd s q (by omega) hc] at h
        rcases List.mem_append.mp h with hmem | hmem
        · exact Or.inl hmem
        · obtain ⟨hin, hpred⟩ := List.mem_filter.mp hmem
          simp only [Bool.and_eq_true, decide_eq_true_eq] at hpred
          exact Or.inr ⟨hpred.1, le_trans hpred.2 (min_le_left _ _)⟩
      · by_cases hr : s.numRetries < 60
        · rw [usersStep_retry syncEnd s q (by omega) hc hr] at h
          exact Or.inl h
        · rw [usersStep_retry_fatal syncEnd s q (by omega) hc (by omega)] at h
          exact Or.inl h
  · intro h
    by_cases hp : 50000 < p.count
    · rw [satStep_overcap t p hp] at h
      exact Or.inl h
    · have hmem := satEmit_mem t.bookmark0 t.start t.wend p.records t.bookmark t.emitted r
      simp only [satStep] at h
      rw [if_neg hp] at h
      rcases hemit : satEmit t.bookmark0 t.start t.wend p.records t.bookmark t.emitted
        with ⟨bm, em⟩ | ⟨bm, em⟩
      · rw [hemit] at h hmem
        exact hmem h
      · rw [hemit] at h hmem
        exact hmem h

/-- Witness for C4 at concrete inputs: a record at timestamp 3 emitted by
a users window `[0, 5]` lies inside it, and a record at timestamp 4
emitted by a satisfaction_ratings window `[0, 5]` lies inside it. -/
theorem C4_witness :
    ((3 : Int) ∈ ([] : List Int) ∨ ((0 : Int) ≤ 3 ∧ (3 : Int) ≤ 5)) ∧
    ((4 : Int) ∈ ([] : List Int) ∨ ((0 : Int) ≤ 4 ∧ (4 : Int) ≤ 5)) := by
  refine ⟨(C4_emitted_within_window 10 ⟨0, 5, 5, 5, 0, 0, []⟩ ⟨0, 5, 5, 5, 0, 0, []⟩
            ⟨0, [3]⟩ ⟨0, [4]⟩ 3).1 (by decide),
          (C4_emitted_within_window 10 ⟨0, 5, 5, 5, 0, 0, []⟩ ⟨0, 5, 5, 5, 0, 0, []⟩
            ⟨0, [3]⟩ ⟨0, [4]⟩ 4).2 (by decide)⟩

theorem usersRun_terminates_of_incap (syncEnd : Int)
    (oracle : Int → Int → SearchResult)
    (hcap : ∀ a b, (oracle a b).count ≤ 1000)
    (hcons : ∀ a b, ∀ r ∈ (oracle a b).records, a ≤ r) :
    ∀ n : Nat, ∀ s : UsersState,
      s.size = s.origSize → 2 ≤ s.origSize → s.wend = s.start + s.size →
      (syncEnd - s.start).toNat ≤ n →
      ∃ s2, usersRun syncEnd oracle (n + 1) s = .done s2 ∧ syncEnd ≤ s2.start := by
  intro n
  induction n with
  | zero =>
    intro s h1 h2 h3 h4
    have hle : syncEnd ≤ s.start := by omega
    refine ⟨s, ?_, hle⟩
    show usersRun syncEnd oracle (Nat.succ 0) s = .done s
    rw [usersRun, if_neg (not_lt.mpr hle)]
  | succ n ih =>
    intro s h1 h2 h3 h4
    by_cases hlt : s.start < syncEnd
    · have hstep := usersStep_success syncEnd s (oracle s.start (min s.wend syncEnd))
        (hcap _ _) (hcons _ _)
      have hno : ¬ s.size ≤ s.origSize / 2 := by omega
      simp only [if_neg hno] at hstep
      obtain ⟨s3, hrun, hle⟩ := ih
        { start := s.wend - 1
          wend := s.wend - 1 + s.size
          size := s.size
          origSize := s.origSize
          numRetries := 0
          bookmark := update_bookmark s.bookmark (some (min s.wend syncEnd))
          emitted := s.emitted ++ (oracle s.start (min s.wend syncEnd)).records.filter
            (fun r => decide (s.start ≤ r) && decide (r ≤ min s.wend syncEnd)) }
        h1 h2 rfl (show (syncEnd - (s.wend - 1)).toNat ≤ n by omega)
      refine ⟨s3, ?_, hle⟩
      show usersRun syncEnd oracle (Nat.succ (n + 1)) s = .done s3
      rw [usersRun, if_pos hlt, hstep]
      exact hrun
    · refine ⟨s, ?_, by omega⟩
      show usersRun syncEnd oracle (Nat.succ (n + 1)) s = .done s
      rw [usersRun, if_neg hlt]

theorem satEmit_ok (b0 start wend : Int) :
    ∀ (recs : List Int) (bm : Int) (em : List Int),
      (∀ r ∈ recs, start ≤ r) →
      ∃ p, satEmit b0 start wend recs bm em = .ok p := by
  intro recs
  induction recs with
  | nil =>
    intro bm em _
    exact ⟨(bm, em), rfl⟩
  | cons x rest ih =>
    intro bm em h
    have hx : start ≤ x := h x (List.mem_cons_self _ _)
    rw [satEmit, if_pos hx]
    exact ih _ _ (fun r hr => h r (List.mem_cons_of_mem _ hr))

theorem satStep_success (s : SatState) (q : SearchResult)
    (hq : q.count ≤ 50000) (hc : ∀ r ∈ q.records, s.start ≤ r) :
    ∃ bm em, satStep s q = .next
      { s with bookmark := bm
               emitted := em
               size := (if s.size ≤ s.origSize / 2 then s.size * 2 else s.size)
               start := s.wend - 1
               wend := s.wend - 1 +
                 (if s.size ≤ s.origSize / 2 then s.size * 2 else s.size) } := by
  have h1 : ¬ 50000 < q.count := by omega
  obtain ⟨⟨bm, em⟩, hemit⟩ :=
    satEmit_ok s.bookmark0 s.start s.wend q.records s.bookmark s.emitted hc
  refine ⟨bm, em, ?_⟩
  simp only [satStep]
  rw [if_neg h1, hemit]

theorem satRun_terminates_of_incap (syncEnd : Int)
    (oracle : Int → Int → SearchResult)
    (hcap : ∀ a b, (oracle a b).count ≤ 50000)
    (hcons : ∀ a b, ∀ r ∈ (oracle a b).records, a ≤ r) :
    ∀ n : Nat, ∀ s : SatState,
      s.size = s.origSize → 2 ≤ s.origSize → s.wend = s.start + s.size →
      (syncEnd - s.start).toNat ≤ n →
      ∃ s2, satRun syncEnd oracle (n + 1) s = .done s2 ∧ syncEnd ≤ s2.start := by
  intro n
  induction n with
  | zero =>
    intro s h1 h2 h3 h4
    have hle : syncEnd ≤ s.start := by omega
    refine ⟨s, ?_, hle⟩
    show satRun syncEnd oracle (Nat.succ 0) s = .done s
    rw [satRun, if_neg (not_lt.mpr hle)]
  | succ n ih =>
    intro s h1 h2 h3 h4
    by_cases hlt : s.start < syncEnd
    · obtain ⟨bm, em, hstep⟩ := satStep_success s (oracle s.start (min s.wend syncEnd))
        (hcap _ _) (hcons _ _)
      have hno : ¬ s.size ≤ s.origSize / 2 := by omega
      simp only [if_neg hno] at hstep
      obtain ⟨s3, hrun, hle⟩ := ih
        { s with bookmark := bm
                 emitted := em
                 size := s.size
                 start := s.wend - 1
                 wend := s.wend - 1 + s.size }
        h1 h2 rfl (show (syncEnd - (s.wend - 1)).toNat ≤ n by omega)
      refine ⟨s3, ?_, hle⟩
      show satRun syncEnd oracle (Nat.succ (n + 1)) s = .done s3
      rw [satRun, if_pos hlt, hstep]
      exact hrun
    · refine ⟨s, ?_, by omega⟩
      show satRun syncEnd oracle (Nat.succ (n + 1)) s = .done s
      rw [satRun, if_neg hlt]

/-- C5 (amended): for both adaptive-window streams, starting from any
bookmark, if every window query returns an in-cap, consistent result and
the configured window size is at least 2 seconds, the window loop
terminates, exiting with `start >= sync_end`.  (The counterexample shows
the 2-second lower bound is needed: with a 1-second window the slide
`start = wend - 1` makes no progress.) -/
theorem C5_window_loop_terminates (syncEnd bmU bmS size : Int)
    (oracleU oracleS : Int → Int → SearchResult)
    (hsize : 2 ≤ size)
    (hcapU : ∀ a b, (oracleU a b).count ≤ 1000)
    (hconsU : ∀ a b, ∀ r ∈ (oracleU a b).records, a ≤ r)
    (hcapS : ∀ a b, (oracleS a b).count ≤ 50000)
    (hconsS : ∀ a b, ∀ r ∈ (oracleS a b).records, a ≤ r) :
    (∃ n s2, usersRun syncEnd oracleU n (usersInit bmU size) = .done s2 ∧
      syncEnd ≤ s2.start) ∧
    (∃ n s2, satRun syncEnd oracleS n (satInit bmS size) = .done s2 ∧
      syncEnd ≤ s2.start) := by
  constructor
  · obtain ⟨s2, hrun, hle⟩ := usersRun_terminates_of_incap syncEnd oracleU hcapU hconsU
      (syncEnd - (bmU - 1)).toNat (usersInit bmU size) rfl hsize rfl (le_refl _)
    exact ⟨_, s2, hrun, hle⟩
  · obtain ⟨s2, hrun, hle⟩ := satRun_terminates_of_incap syncEnd oracleS hcapS hconsS
      (syncEnd - bmS).toNat (satInit bmS size) rfl hsize rfl (le_refl _)
    exact ⟨_, s2, hrun, hle⟩

/-- Witness for C5 at concrete inputs: from bookmark 1 with a 2-second
window and an oracle of empty in-cap results, both loops reach `done`. -/
theorem C5_witness :
    (∃ n s2, usersRun 10 emptyOracle n (usersInit 1 2) = .done s2 ∧
      (10 : Int) ≤ s2.start) ∧
    (∃ n s2, satRun 10 emptyOracle n (satInit 1 2) = .done s2 ∧
      (10 : Int) ≤ s2.start) := by
  exact C5_window_loop_terminates 10 1 1 2 emptyOracle emptyOracle (by decide)
    (fun a b => Nat.zero_le _) (fun a b r hr => nomatch hr)
    (fun a b => Nat.zero_le _) (fun a b r hr => nomatch hr)

/-- With a 1-second window the slide `start = wend - 1` leaves the users
loop state unchanged forever on an in-cap, consistent oracle. -/
theorem usersRun_stuck_at_one_second (n : Nat) :
    usersRun 10 emptyOracle n (usersInit 1 1) = .outOfFuel (usersInit 1 1) := by
  induction n with
  | zero => rfl
  | succ n ih =>
    have hstep : usersStep 10 (usersInit 1 1)
        (emptyOracle (usersInit 1 1).start (min (usersInit 1 1).wend 10)) =
        .next (usersInit 1 1) := by decide
    show usersRun 10 emptyOracle (Nat.succ n) (usersInit 1 1) = _
    rw [usersRun, if_pos (by decide : (usersInit 1 1).start < 10), hstep]
    exact ih

/-- C5 counterexample: with a configured window size of 1 second, a
bookmark of 1 and `sync_end = 10`, every query answered in-cap and
consistent, the users window loop never terminates: the slide
`start = end - 1s` re-queries the same 1-second window forever. -/
theorem C5_counterexample : ¬ usersRunHalts 10 emptyOracle (usersInit 1 1) := by
  rintro ⟨fuel, hf⟩
  rw [usersRun_stuck_at_one_second fuel] at hf
  simp [RunResult.finished] at hf

/-- C6 counterexample: for a parent with id 42 at position 1609459200
(2021-01-01T00:00:00Z), non-terminal status and a prior bookmark of 0,
the child run issues exactly one fetch for parent 42 but leaves the
child bookmark at 1609459202 (2021-01-01T00:00:02Z), not the claimed
1609459201: `push_ticket_child` hands over position + 1s and
`update_bookmark` adds a further second on storing. -/
theorem C6_counterexample :
    ticketAuditsGo c6Fetch [⟨42, "open", 1609459200⟩] (childInit 0) =
      .ok ⟨1609459202, [42], [42], 1⟩ ∧ (1609459202 : Int) ≠ 1609459201 := by
  exact ⟨rfl, by decide⟩

/-- C6 (amended): for a parent with id 42, position 1609459200 and a
non-terminal status, from any prior child bookmark at or before the
parent position, exactly one child fetch is issued with parent id 42,
and the child bookmark afterwards is 1609459202 — the parent position
plus two seconds (one added by `push_ticket_child`, one more by
`update_bookmark`). -/
theorem C6_child_fetch_once_and_double_increment (b : Int) (hb : b ≤ 1609459200) :
    ∃ s, ticketAuditsGo c6Fetch [⟨42, "open", 1609459200⟩] (childInit b) = .ok s ∧
      s.fetched = [42] ∧ s.bookmark = 1609459202 := by
  have key : ticketAuditsGo c6Fetch [⟨42, "open", 1609459200⟩] (childInit b) =
      .ok ⟨update_bookmark b (some 1609459201), [42], [42], 1⟩ := rfl
  have hlt : b < 1609459201 := by omega
  refine ⟨⟨update_bookmark b (some 1609459201), [42], [42], 1⟩, key, rfl, ?_⟩
  show update_bookmark b (some 1609459201) = 1609459202
  simp only [update_bookmark]
  rw [if_pos hlt]
  norm_num

/-- Witness for C6 with the prior bookmark at the configured start date
2020-01-01T00:00:00Z (1577836800). -/
theorem C6_witness :
    ∃ s, ticketAuditsGo c6Fetch [⟨42, "open", 1609459200⟩] (childInit 1577836800) =
      .ok s ∧ s.fetched = [42] ∧ s.bookmark = 1609459202 :=
  C6_child_fetch_once_and_double_increment 1577836800 (by decide)

/-- C7 counterexample: `TicketMetrics.sync` has no status guard — a
parent in the terminal deleted state does get a child fetch issued. -/
theorem C7_counterexample :
    (ticketMetricsGo (fun _ => .ok ()) [⟨42, "deleted", 100⟩] (childInit 0)).fetched =
      [42] := by decide

/-- C7 (amended): ticket_audits and ticket_comments never issue a child
fetch for a parent whose status is the terminal state deleted — the
parent leaves the run state entirely unchanged; ticket_metrics has no
such guard (see the counterexample). -/
theorem C7_deleted_parent_not_fetched (cfA cfC : Int → Except Unit (List Unit))
    (s : ChildState) (t : Ticket) (h : t.status = "deleted") :
    ticketAuditsStep cfA s t = .ok s ∧ ticketCommentsStep cfC s t = .ok s := by
  have hc : ¬ (t.status ≠ "deleted" ∧ t.id ∉ s.ids) := by simp [h]
  constructor
  · simp only [ticketAuditsStep]
    rw [if_neg hc]
  · simp only [ticketCommentsStep]
    rw [if_neg hc]

/-- Witness for C7 at a concrete deleted parent. -/
theorem C7_witness :
    ticketAuditsStep (fun _ => .ok []) (childInit 0) ⟨7, "deleted", 100⟩ =
      .ok (childInit 0) ∧
    ticketCommentsStep (fun _ => .ok []) (childInit 0) ⟨7, "deleted", 100⟩ =
      .ok (childInit 0) :=
  C7_deleted_parent_not_fetched _ _ (childInit 0) ⟨7, "deleted", 100⟩ rfl

theorem ticketMetricsStep_ids_mono (cf : Int → Except Unit Unit) (s : ChildState)
    (t : Ticket) : ∀ x ∈ s.ids, x ∈ (ticketMetricsStep cf s t).ids := by
  intro x hx
  simp only [ticketMetricsStep]
  split
  · cases cf t.id
    · exact List.mem_append_left _ hx
    · exact List.mem_append_left _ hx
  · exact hx

theorem ticketMetricsStep_ids_self (cf : Int → Except Unit Unit) (s : ChildState)
    (t : Ticket) : t.id ∈ (ticketMetricsStep cf s t).ids := by
  simp only [ticketMetricsStep]
  split
  · cases cf t.id
    · exact List.mem_append_right _ (List.mem_singleton_self _)
    · exact List.mem_append_right _ (List.mem_singleton_self _)
  · have h : ¬ t.id ∉ s.ids := by assumption
    exact not_not.mp h

theorem ticketMetricsGo_ids_mono (cf : Int → Except Unit Unit) :
    ∀ (tickets : List Ticket) (s : ChildState) (x : Int),
      x ∈ s.ids → x ∈ (ticketMetricsGo cf tickets s).ids := by
  intro tickets
  induction tickets with
  | nil => intro s x hx; exact hx
  | cons t rest ih =>
    intro s x hx
    exact ih _ x (ticketMetricsStep_ids_mono cf s t x hx)

theorem ticketMetricsGo_all_attempted (cf : Int → Except Unit Unit) :
    ∀ (tickets : List Ticket) (s : ChildState),
      ∀ t ∈ tickets, t.id ∈ (ticketMetricsGo cf tickets s).ids := by
  intro tickets
  induction tickets with
  | nil => intro s t ht; exact absurd ht (List.not_mem_nil _)
  | cons t0 rest ih =>
    intro s t ht
    rcases List.mem_cons.mp ht with h | h
    · subst h
      exact ticketMetricsGo_ids_mono cf rest _ t.id (ticketMetricsStep_ids_self cf s t)
    · exact ih _ t h

/-- C8 counterexample: in ticket_audits a child-fetch failure for parent
1 propagates and aborts the run — parent 2, later in the same listing,
is never reached. -/
theorem C8_counterexample :
    ticketAuditsGo (fun i => if i = 1 then .error () else .ok [])
      [⟨1, "open", 10⟩, ⟨2, "open", 20⟩] (childInit 0) =
      .error ⟨0, [], [1], 0⟩ := rfl

/-- C8 (amended): only ticket_metrics recovers a child-fetch failure
locally — the failing parent is marked seen and skipped with no emission
and no bookmark change, and every parent of the listing still gets its
fetch attempted; in ticket_audits and ticket_comments a child-fetch
failure propagates and aborts the rest of the run (counterexample). -/
theorem C8_metrics_failure_recovered_locally (cf : Int → Except Unit Unit)
    (s : ChildState) (t : Ticket) (tickets : List Ticket)
    (hmem : t.id ∉ s.ids) (hfail : cf t.id = .error ()) :
    ticketMetricsStep cf s t =
      { s with ids := s.ids ++ [t.id], fetched := s.fetched ++ [t.id] } ∧
    (∀ t2 ∈ tickets, t2.id ∈ (ticketMetricsGo cf tickets s).ids) := by
  constructor
  · simp only [ticketMetricsStep]
    rw [if_pos hmem, hfail]
  · exact ticketMetricsGo_all_attempted cf tickets s

/-- Witness for C8: the metrics fetch for parent 1 fails and is skipped
in place, and parent 2 of the same listing is still processed. -/
theorem C8_witness :
    ticketMetricsStep failOn1 (childInit 0) ⟨1, "open", 10⟩ = ⟨0, [1], [1], 0⟩ ∧
    (2 : Int) ∈ (ticketMetricsGo failOn1 [⟨1, "open", 10⟩, ⟨2, "open", 20⟩]
      (childInit 0)).ids := by
  refine ⟨(C8_metrics_failure_recovered_locally failOn1 (childInit 0) ⟨1, "open", 10⟩
            [] (by decide) rfl).1, ?_⟩
  exact (C8_metrics_failure_recovered_locally failOn1 (childInit 0) ⟨1, "open", 10⟩
    [⟨1, "open", 10⟩, ⟨2, "open", 20⟩] (by decide) rfl).2
    ⟨2, "open", 20⟩ (by simp)

theorem nodup_append_singleton (l : List Int) (a : Int) (hnd : l.Nodup)
    (ha : a ∉ l) : (l ++ [a]).Nodup := by
  simp [List.nodup_append, hnd, ha]

theorem foldl_preserves_fetched_ids (f : ChildState → Unit → ChildState)
    (hf : ∀ s c, (f s c).fetched = s.fetched ∧ (f s c).ids = s.ids) :
    ∀ (children : List Unit) (s0 : ChildState),
      (children.foldl f s0).fetched = s0.fetched ∧
      (children.foldl f s0).ids = s0.ids := by
  intro children
  induction children with
  | nil => intro s0; exact ⟨rfl, rfl⟩
  | cons c rest ih =>
    intro s0
    have h := hf s0 c
    have h2 := ih (f s0 c)
    exact ⟨h2.1.trans h.1, h2.2.trans h.2⟩

theorem ticketAuditsStep_inv (cf : Int → Except Unit (List Unit)) (s : ChildState)
    (t : Ticket) (hnd : s.fetched.Nodup) (hsub : ∀ x ∈ s.fetched, x ∈ s.ids) :
    (∀ s2, ticketAuditsStep cf s t = .ok s2 →
      s2.fetched.Nodup ∧ ∀ x ∈ s2.fetched, x ∈ s2.ids) ∧
    (∀ s2, ticketAuditsStep cf s t = .error s2 → s2.fetched.Nodup) := by
  by_cases hcond : t.status ≠ "deleted" ∧ t.id ∉ s.ids
  · have hnotfet : t.id ∉ s.fetched := fun h => hcond.2 (hsub _ h)
    have hnd2 := nodup_append_singleton s.fetched t.id hnd hnotfet
    cases hcf : cf t.id with
    | error e =>
      have hstep : ticketAuditsStep cf s t =
          .error { s with fetched := s.fetched ++ [t.id] } := by
        simp only [ticketAuditsStep]
        rw [if_pos hcond, hcf]
      constructor
      · intro s2 h
        rw [hstep] at h
        exact Except.noConfusion h
      · intro s2 h
        rw [hstep] at h
        cases h
        exact hnd2
    | ok children =>
      have hstep : ticketAuditsStep cf s t = .ok (children.foldl
          (fun s2 _ =>
            { s2 with bookmark := push_ticket_child s2.bookmark t.generated_timestamp
                      emitted := s2.emitted + 1 })
          { s with fetched := s.fetched ++ [t.id], ids := s.ids ++ [t.id] }) := by
        simp only [ticketAuditsStep]
        rw [if_pos hcond, hcf]
      have hfold := foldl_preserves_fetched_ids
        (fun s2 _ =>
          { s2 with bookmark := push_ticket_child s2.bookmark t.generated_timestamp
                    emitted := s2.emitted + 1 })
        (fun s2 c => ⟨rfl, rfl⟩) children
        { s with fetched := s.fetched ++ [t.id], ids := s.ids ++ [t.id] }
      constructor
      · intro s2 h
        rw [hstep] at h
        cases h
        refine ⟨hfold.1 ▸ hnd2, ?_⟩
        intro x hx
        rw [hfold.1] at hx
        rw [hfold.2]
        rcases List.mem_append.mp hx with h1 | h1
        · exact List.mem_append_left _ (hsub _ h1)
        · exact List.mem_append_right _ h1
      · intro s2 h
        rw [hstep] at h
        exact Except.noConfusion h
  · have hstep : ticketAuditsStep cf s t = .ok s := by
      simp only [ticketAuditsStep]
      rw [if_neg hcond]
    constructor
    · intro s2 h
      rw [hstep] at h
      cases h
      exact ⟨hnd, hsub⟩
    · intro s2 h
      rw [hstep] at h
      exact Except.noConfusion h

theorem ticketAuditsGo_nodup (cf : Int → Except Unit (List Unit)) :
    ∀ (tickets : List Ticket) (s : ChildState),
      s.fetched.Nodup → (∀ x ∈ s.fetched, x ∈ s.ids) →
      (childResultState (ticketAuditsGo cf tickets s)).fetched.Nodup := by
  intro tickets
  induction tickets with
  | nil => intro s hnd _; exact hnd
  | cons t rest ih =>
    intro s hnd hsub
    have hinv := ticketAuditsStep_inv cf s t hnd hsub
    rcases hstep : ticketAuditsStep cf s t with s2 | s2
    · rw [ticketAuditsGo, hstep]
      exact hinv.2 s2 hstep
    · rw [ticketAuditsGo, hstep]
      obtain ⟨h1, h2⟩ := hinv.1 s2 hstep
      exact ih s2 h1 h2

theorem commentsStep_eq_auditsStep (cf : Int → Except Unit (List Unit))
    (s : ChildState) (t : Ticket) :
    ticketCommentsStep cf s t = ticketAuditsStep cf s t := rfl

theorem commentsGo_eq_auditsGo (cf : Int → Except Unit (List Unit)) :
    ∀ (tickets : List Ticket) (s : ChildState),
      ticketCommentsGo cf tickets s = ticketAuditsGo cf tickets s := by
  intro tickets
  induction tickets with
  | nil => intro s; rfl
  | cons t rest ih =>
    intro s
    rw [ticketCommentsGo, ticketAuditsGo, commentsStep_eq_auditsStep]
    rcases ticketAuditsStep cf s t with s2 | s2
    · rfl
    · exact ih s2

theorem ticketMetricsStep_inv (cf : Int → Except Unit Unit) (s : ChildState)
    (t : Ticket) (heq : s.ids = s.fetched) (hnd : s.fetched.Nodup) :
    (ticketMetricsStep cf s t).ids = (ticketMetricsStep cf s t).fetched ∧
    (ticketMetricsStep cf s t).fetched.Nodup := by
  by_cases hmem : t.id ∉ s.ids
  · have hnotfet : t.id ∉ s.fetched := heq ▸ hmem
    have hnd2 := nodup_append_singleton s.fetched t.id hnd hnotfet
    simp only [ticketMetricsStep]
    rw [if_pos hmem]
    cases cf t.id with
    | error e => exact ⟨by rw [heq], hnd2⟩
    | ok c => exact ⟨by rw [heq], hnd2⟩
  · simp only [ticketMetricsStep]
    rw [if_neg hmem]
    exact ⟨heq, hnd⟩

theorem ticketMetricsGo_inv (cf : Int → Except Unit Unit) :
    ∀ (tickets : List Ticket) (s : ChildState),
      s.ids = s.fetched → s.fetched.Nodup →
      (ticketMetricsGo cf tickets s).fetched.Nodup := by
  intro tickets
  induction tickets with
  | nil => intro s _ hnd; exact hnd
  | cons t rest ih =>
    intro s heq hnd
    obtain ⟨h1, h2⟩ := ticketMetricsStep_inv cf s t heq hnd
    exact ih _ h1 h2

/-- C9: for each of the three child-expansion streams, a parent id has
its child fetch issued at most once per run, however often the listing
repeats it and whatever each fetch returns — whether the run completes
or aborts part-way. -/
theorem C9_duplicate_parent_fetched_at_most_once
    (cfA cfC : Int → Except Unit (List Unit)) (cfM : Int → Except Unit Unit)
    (tickets : List Ticket) (b x : Int) :
    (childResultState (ticketAuditsGo cfA tickets (childInit b))).fetched.count x ≤ 1 ∧
    (ticketMetricsGo cfM tickets (childInit b)).fetched.count x ≤ 1 ∧
    (childResultState (ticketCommentsGo cfC tickets (childInit b))).fetched.count x ≤ 1 := by
  refine ⟨?_, ?_, ?_⟩
  · exact List.nodup_iff_count_le_one.mp
      (ticketAuditsGo_nodup cfA tickets (childInit b) List.nodup_nil
        (fun y hy => absurd hy (List.not_mem_nil _))) x
  · exact List.nodup_iff_count_le_one.mp
      (ticketMetricsGo_inv cfM tickets (childInit b) rfl List.nodup_nil) x
  · rw [commentsGo_eq_auditsGo]
    exact List.nodup_iff_count_le_one.mp
      (ticketAuditsGo_nodup cfC tickets (childInit b) List.nodup_nil
        (fun y hy => absurd hy (List.not_mem_nil _))) x

/-- C10: in `GroupMemberships.sync`, a record with a falsy `updated_at`
and a truthy `id` is emitted whatever the live bookmark is, and the
bookmark is not advanced for it; a record with both falsy is skipped
without emission; a record with a truthy `updated_at` is emitted exactly
when `updated_at` is at or after the bookmark read at sync start
(`bookmark0`), the only bookmark the comparison ever uses. -/
theorem C10_group_memberships_emission (b0 st : Int) (em : List Membership)
    (m : Membership) (i u : Int) :
    (m.updated_at = none → m.id = some i →
      groupMembershipsStep b0 st em m = (st, em ++ [m])) ∧
    (m.updated_at = none → m.id = none →
      groupMembershipsStep b0 st em m = (st, em)) ∧
    (m.updated_at = some u → b0 ≤ u →
      groupMembershipsStep b0 st em m = (update_bookmark st (some u), em ++ [m])) ∧
    (m.updated_at = some u → ¬ b0 ≤ u →
      groupMembershipsStep b0 st em m = (st, em)) := by
  refine ⟨?_, ?_, ?_, ?_⟩
  · intro h1 h2
    simp only [groupMembershipsStep, h1, h2]
  · intro h1 h2
    simp only [groupMembershipsStep, h1, h2]
  · intro h1 h2
    simp only [groupMembershipsStep, h1]
    rw [if_pos h2]
  · intro h1 h2
    simp only [groupMembershipsStep, h1]
    rw [if_neg h2]

/-- Witness for C10 at concrete records, against a start-of-sync bookmark
of 5 and a live bookmark of 7. -/
theorem C10_witness :
    groupMembershipsStep 5 7 [] ⟨none, some 3⟩ = (7, [⟨none, some 3⟩]) ∧
    groupMembershipsStep 5 7 [] ⟨none, none⟩ = (7, []) ∧
    groupMembershipsStep 5 7 [] ⟨some 9, none⟩ = (10, [⟨some 9, none⟩]) ∧
    groupMembershipsStep 5 7 [] ⟨some 2, none⟩ = (7, []) := by
  refine ⟨(C10_group_memberships_emission 5 7 [] ⟨none, some 3⟩ 3 0).1 rfl rfl,
          (C10_group_memberships_emission 5 7 [] ⟨none, none⟩ 0 0).2.1 rfl rfl,
          (C10_group_memberships_emission 5 7 [] ⟨some 9, none⟩ 0 9).2.2.1 rfl (by decide),
          (C10_group_memberships_emission 5 7 [] ⟨some 2, none⟩ 0 2).2.2.2 rfl (by decide)⟩

end TapZendesk
